import Mathlib

/-!
Verification of the NCO classification tool (single-page form and two-step
wizard) against its specification.  The definitions below are a shallow
embedding of the two page modules: the static taxonomy table `ncoData`, the
option-list memos, the three validators, the cascade-reset effects of both
form variants, and the wizard flow controller.  Strings are Lean `String`s
(a JavaScript string is falsy exactly when empty, so `!s` becomes `s = ""`),
JavaScript `Record<string,string>` error objects are ordered association
lists with `List.lookup` as key access, and the asynchronous suggestion call
is a value of an outcome type (`ok success description` or `thrown`).
-/

/-- Four-level taxonomy: Group name to ordered Family list. -/
abbrev GroupTable := List (String × List String)

/-- Sub-Division name to its group table. -/
abbrev SubTable := List (String × GroupTable)

/-- Division name to its sub-division table. -/
abbrev DivTable := List (String × SubTable)

/-- The static `ncoData` literal, identical in both page modules, as an
ordered association list mirroring JavaScript object key order. -/
def ncoData : DivTable :=
  [ ("Division A",
      [ ("Sub-Division A1",
          [ ("Group A1-1", ["Family A1-1-1", "Family A1-1-2"]),
            ("Group A1-2", ["Family A1-2-1", "Family A1-2-2"]) ]),
        ("Sub-Division A2",
          [ ("Group A2-1", ["Family A2-1-1"]),
            ("Group A2-2", ["Family A2-2-1", "Family A2-2-2"]) ]) ]),
    ("Division B",
      [ ("Sub-Division B1",
          [ ("Group B1-1", ["Family B1-1-1", "Family B1-1-2"]),
            ("Group B1-2", ["Family B1-2-1"]) ]) ]) ]

/-- The top-level division keys: `Object.keys(ncoData)`. -/
def divisions : List String := ncoData.map Prod.fst

/-- Keys of the sub-division table reached by descending `ncoData` along
`division`, with each failed lookup defaulting to the empty table.  Used to
state referential integrity. -/
def tableSubs (division : String) : List String :=
  ((ncoData.lookup division).getD []).map Prod.fst

/-- Keys of the group table reached by descending along
`division.subDivision`, failed lookups defaulting to empty. -/
def tableGroups (division subDivision : String) : List String :=
  (((((ncoData.lookup division).getD []).lookup subDivision).getD [])).map Prod.fst

/-- The family list reached by descending along
`division.subDivision.group`, failed lookups defaulting to empty. -/
def tableFamilies (division subDivision grp : String) : List String :=
  (((((ncoData.lookup division).getD []).lookup subDivision).getD [])).lookup grp |>.getD []

/-- The `subDivisions` useMemo of both variants:
`if (!division) return []; return Object.keys(ncoData[division] || {})`. -/
def subDivisionsOf (division : String) : List String :=
  if division = "" then []
  else ((ncoData.lookup division).getD []).map Prod.fst

/-- The `groups` useMemo of both variants.  The source reads
`ncoData[division]` without a default before indexing it with
`subDivision`, so when `division` is non-empty but absent from the table the
JavaScript expression throws a TypeError; that fault is modelled as `none`.
Otherwise the result is `Object.keys(divisionData[subDivision] || {})`. -/
def groupsOf (division subDivision : String) : Option (List String) :=
  if division = "" ∨ subDivision = "" then some []
  else
    match ncoData.lookup division with
    | none => none
    | some divisionData =>
        some (((divisionData.lookup subDivision).getD []).map Prod.fst)

/-- The `families` useMemo of both variants.  Both `ncoData[division]` and
`divisionData[subDivision]` are read without defaults, so a non-empty absent
`division` or `subDivision` throws (modelled as `none`); only the final
`subDivisionData[group] || []` lookup defaults to the empty list. -/
def familiesOf (division subDivision grp : String) : Option (List String) :=
  if division = "" ∨ subDivision = "" ∨ grp = "" then some []
  else
    match ncoData.lookup division with
    | none => none
    | some divisionData =>
        match divisionData.lookup subDivision with
        | none => none
        | some subDivisionData => some ((subDivisionData.lookup grp).getD [])

/-- Modelled from the spec: the Taxonomy Store contract `childrenOf` of
section 4.1, written from the specification wording (depth 0 returns all
top-level keys; depths 1 to 3 return the empty sequence whenever any
ancestor in the path is empty or not present in the table, and otherwise
the keys or family list found by descending along the path).  This is the
comparison point for the option-list memos above, which are translated from
the source. -/
def childrenOfSpec : List String → List String
  | [] => divisions
  | [d] =>
      if d = "" ∨ ncoData.lookup d = none then [] else tableSubs d
  | [d, sd] =>
      if d = "" ∨ sd = "" ∨ ncoData.lookup d = none ∨
          (((ncoData.lookup d).getD []).lookup sd) = none then []
      else tableGroups d sd
  | [d, sd, g] =>
      if d = "" ∨ sd = "" ∨ g = "" ∨ ncoData.lookup d = none ∨
          (((ncoData.lookup d).getD []).lookup sd) = none ∨
          (((((ncoData.lookup d).getD []).lookup sd).getD []).lookup g) = none then []
      else tableFamilies d sd g
  | _ => []

/-- Result of a validator: `isValid` is `Object.keys(errors).length === 0`
and `errors` is the field-keyed error record, in insertion order. -/
structure ValidationResult where
  isValid : Bool
  errors : List (String × String)
deriving DecidableEq

/-- The record under edit in the single-page variant (`FormData` of the
single-form module).  `confidenceScore` is the one-element slider array. -/
structure FormDataS where
  ncoCode : String
  title : String
  description : String
  division : String
  subDivision : String
  group : String
  family : String
  confidenceScore : List Nat
deriving DecidableEq

/-- The record under edit in the wizard variant (`FormData` of the admin
module); it has no `title` field and names its slider array `confidence`. -/
structure FormDataW where
  ncoCode : String
  division : String
  subDivision : String
  group : String
  family : String
  description : String
  confidence : List Nat
deriving DecidableEq

/-- The `validateForm` validator of the single-page module: seven conditional inserts into
the error record, in source order. -/
def validateForm (data : FormDataS) : ValidationResult :=
  let errors :=
    (if data.ncoCode = "" then [("ncoCode", "NCO Code is required")] else []) ++
    (if data.title = "" then [("title", "Title is required")] else []) ++
    (if data.description = "" ∨ data.description.length < 10 then
        [("description", "Description must be at least 10 characters")] else []) ++
    (if data.division = "" then [("division", "Division is required")] else []) ++
    (if data.subDivision = "" then [("subDivision", "Sub-Division is required")] else []) ++
    (if data.group = "" then [("group", "Group is required")] else []) ++
    (if data.family = "" then [("family", "Family is required")] else [])
  { isValid := errors.isEmpty, errors := errors }

/-- The `validateNcoDetails` validator of the wizard module. -/
def validateNcoDetails (data : FormDataW) : ValidationResult :=
  let errors :=
    (if data.ncoCode = "" then [("ncoCode", "NCO Code is required")] else []) ++
    (if data.division = "" then [("division", "Division is required")] else []) ++
    (if data.subDivision = "" then [("subDivision", "Sub-Division is required")] else []) ++
    (if data.group = "" then [("group", "Group is required")] else []) ++
    (if data.family = "" then [("family", "Family is required")] else [])
  { isValid := errors.isEmpty, errors := errors }

/-- The `validateNcoReview` validator of the wizard module. -/
def validateNcoReview (data : FormDataW) : ValidationResult :=
  let errors :=
    if data.description = "" ∨ data.description.length < 10 then
      [("description", "Description must be at least 10 characters")] else []
  { isValid := errors.isEmpty, errors := errors }

/-- The initial single-page record: all strings empty, slider `[50]`. -/
def initS : FormDataS :=
  { ncoCode := "", title := "", description := "", division := "",
    subDivision := "", group := "", family := "", confidenceScore := [50] }

/-- Division change in the single-page variant, composed to quiescence.
The `onChange` handler writes `division`; the first useEffect, whose
dependency is `formData.division`, fires exactly when the committed value
changed and writes `subDivision`, `group` and `family` to `""` in one update
(the later effects then re-run but only rewrite the same empty strings). -/
def onDivisionChangeS (v : String) (s : FormDataS) : FormDataS :=
  if v = s.division then s
  else { s with division := v, subDivision := "", group := "", family := "" }

/-- Sub-division change in the single-page variant, composed to quiescence:
the second useEffect fires on the changed `subDivision` and clears both
`group` and `family`. -/
def onSubDivisionChangeS (v : String) (s : FormDataS) : FormDataS :=
  if v = s.subDivision then s
  else { s with subDivision := v, group := "", family := "" }

/-- Group change in the single-page variant: the third useEffect fires on
the changed `group` and clears `family`. -/
def onGroupChangeS (v : String) (s : FormDataS) : FormDataS :=
  if v = s.group then s
  else { s with group := v, family := "" }

/-- Family change in the single-page variant: no effect depends on
`family`, so only the field itself is written. -/
def onFamilyChangeS (v : String) (s : FormDataS) : FormDataS :=
  { s with family := v }

/-- Division change in the wizard variant, composed to quiescence.  Here the
three useEffects each clear one field, and each fires only when its own
dependency changed between renders: writing `division` fires the first
effect (`subDivision := ""`); the second effect then fires only if
`subDivision` actually changed, i.e. was previously non-empty; the third
fires only if `group` then actually changed. -/
def onDivisionChangeW (v : String) (s : FormDataW) : FormDataW :=
  if v = s.division then s
  else
    let s1 := { s with division := v, subDivision := "" }
    if s.subDivision = "" then s1
    else
      let s2 := { s1 with group := "" }
      if s.group = "" then s2 else { s2 with family := "" }

/-- Sub-division change in the wizard variant, composed to quiescence:
the second effect fires (`group := ""`), and the third fires only if
`group` was previously non-empty. -/
def onSubDivisionChangeW (v : String) (s : FormDataW) : FormDataW :=
  if v = s.subDivision then s
  else
    let s1 := { s with subDivision := v, group := "" }
    if s.group = "" then s1 else { s1 with family := "" }

/-- Group change in the wizard variant: the third effect clears `family`. -/
def onGroupChangeW (v : String) (s : FormDataW) : FormDataW :=
  if v = s.group then s
  else { s with group := v, family := "" }

/-- Family change in the wizard variant: plain field write. -/
def onFamilyChangeW (v : String) (s : FormDataW) : FormDataW :=
  { s with family := v }

/-- First mount-time effect of `NcoFormDetails`: `subDivision := ""`. -/
def detailsEffectDivision (r : FormDataW) : FormDataW :=
  { r with subDivision := "" }

/-- Second mount-time effect of `NcoFormDetails`: `group := ""`. -/
def detailsEffectSubDivision (r : FormDataW) : FormDataW :=
  { r with group := "" }

/-- Third mount-time effect of `NcoFormDetails`: `family := ""`. -/
def detailsEffectGroup (r : FormDataW) : FormDataW :=
  { r with family := "" }

/-- On mount of `NcoFormDetails` all three effects run once, in declaration
order (after mounting, re-runs only rewrite the same empty strings). -/
def mountDetailsCascade (r : FormDataW) : FormDataW :=
  detailsEffectGroup (detailsEffectSubDivision (detailsEffectDivision r))

/-- The wizard step values: `currentStep` 1 renders the Details form,
2 renders the Review form. -/
inductive WStep where
  | details
  | review
deriving DecidableEq

/-- State of `NcoAdminApp`: the current step and the shared record. -/
structure WizardState where
  step : WStep
  record : FormDataW
deriving DecidableEq

/-- The wizard default record: all strings empty, `confidence` `[75]`. -/
def defaultW : FormDataW :=
  { ncoCode := "", division := "", subDivision := "", group := "",
    family := "", description := "", confidence := [75] }

/-- Initial state of `NcoAdminApp`: step 1 with the default record; the
Details form mounts immediately and its cascade runs (a no-op here). -/
def initW : WizardState :=
  { step := .details, record := mountDetailsCascade defaultW }

/-- The `handleSubmit` action of `NcoFormDetails` combined with `handleNext` of
`NcoAdminApp`: validate the Details profile; when valid clear the local
errors and advance to step 2, otherwise keep the state and surface the
returned error record. -/
def handleDetailsAdvance (w : WizardState) : WizardState × List (String × String) :=
  let validation := validateNcoDetails w.record
  if validation.isValid then ({ w with step := .review }, [])
  else (w, validation.errors)

/-- The `handleSubmitReview` action of `NcoFormReview` combined with `handleSubmit` of
`NcoAdminApp`: validate the Review profile; when valid reset the record to
the defaults and return to step 1 (whose mount cascade is a no-op on the
defaults), otherwise keep the state and surface the error record. -/
def handleSubmitReview (w : WizardState) : WizardState × List (String × String) :=
  let validation := validateNcoReview w.record
  if validation.isValid then
    ({ step := .details, record := mountDetailsCascade defaultW }, [])
  else (w, validation.errors)

/-- The `handleBack` action of `NcoAdminApp` (`setCurrentStep(1)`) followed by the
remount of `NcoFormDetails`, whose mount-time cascade runs on the record. -/
def handleBackW (w : WizardState) : WizardState :=
  { step := .details, record := mountDetailsCascade w.record }

/-- The `handleSubmit` action of `NcoSingleForm`: validate the combined profile; when
valid clear the errors and show the acknowledgement alert, otherwise store
the error record.  The record itself is never written. -/
def handleSubmitSingle (r : FormDataS) : FormDataS × List (String × String) × Bool :=
  let validation := validateForm r
  if validation.isValid then (r, [], true)
  else (r, validation.errors, false)

/-- Outcome of one `getNcoDescriptionSuggestion` call as observed by the
`await` in the handler: a settled result object, or a thrown error. -/
inductive SuggestionOutcome where
  | ok (success : Bool) (description : String)
  | thrown
deriving DecidableEq

/-- The template string built by the mock suggestion service. -/
def suggestionText (division subDivision grp fam : String) : String :=
  "Professional role in " ++ fam ++ " within " ++ grp ++
    ". Responsibilities include specialized tasks related to " ++ division ++
    " operations and " ++ subDivision ++ " management."

/-- The mock `getNcoDescriptionSuggestion`: always resolves with
`success: true` and the template description. -/
def getNcoDescriptionSuggestion (division subDivision grp fam : String) : SuggestionOutcome :=
  .ok true (suggestionText division subDivision grp fam)

/-- Kind of toast raised by `showToast`. -/
inductive ToastKind where
  | success
  | error
deriving DecidableEq

/-- Completion of `handleSuggestDescription` in `NcoFormReview`: when the
awaited result has `success` truthy and a truthy (non-empty) `description`,
overwrite the record description and raise a success toast; on any other
result, or on a thrown error, leave the record alone and raise the error
toast. -/
def applySuggestionOutcome (outcome : SuggestionOutcome) (r : FormDataW) :
    FormDataW × ToastKind :=
  match outcome with
  | .ok success d =>
      if success = true ∧ d ≠ "" then ({ r with description := d }, .success)
      else (r, .error)
  | .thrown => (r, .error)

/-- Referential integrity of a taxonomy selection, as stated by the spec:
`subDivision` is empty or a key under `division`; `group` is empty or a key
under `division.subDivision`; `family` is empty or a member of the list at
`division.subDivision.group`. -/
def IntactTaxo (division subDivision grp fam : String) : Prop :=
  (subDivision = "" ∨ subDivision ∈ tableSubs division) ∧
  (grp = "" ∨ grp ∈ tableGroups division subDivision) ∧
  (fam = "" ∨ fam ∈ tableFamilies division subDivision grp)

instance (division subDivision grp fam : String) :
    Decidable (IntactTaxo division subDivision grp fam) := by
  unfold IntactTaxo
  infer_instance

/-- Referential integrity of the single-page record. -/
def InvS (s : FormDataS) : Prop :=
  IntactTaxo s.division s.subDivision s.group s.family

/-- Referential integrity of the wizard record. -/
def InvW (r : FormDataW) : Prop :=
  IntactTaxo r.division r.subDivision r.group r.family

/-- One user interaction on the single-page form, composed with the cascade
resets it triggers.  Text and slider fields accept any value; each select
only ever commits its placeholder `""` or one of the options it renders,
and a select can be interacted with only while its rendering did not fault
(the `groups` and `families` memos must have produced a list). -/
inductive StepS : FormDataS → FormDataS → Prop where
  | ncoCode (s : FormDataS) (v : String) : StepS s { s with ncoCode := v }
  | title (s : FormDataS) (v : String) : StepS s { s with title := v }
  | description (s : FormDataS) (v : String) : StepS s { s with description := v }
  | confidence (s : FormDataS) (v : List Nat) : StepS s { s with confidenceScore := v }
  | division (s : FormDataS) (v : String)
      (hv : v = "" ∨ v ∈ divisions) :
      StepS s (onDivisionChangeS v s)
  | subDivision (s : FormDataS) (v : String)
      (hd : s.division ≠ "") (hv : v = "" ∨ v ∈ subDivisionsOf s.division) :
      StepS s (onSubDivisionChangeS v s)
  | group (s : FormDataS) (v : String) (gs : List String)
      (hd : s.subDivision ≠ "") (hm : groupsOf s.division s.subDivision = some gs)
      (hv : v = "" ∨ v ∈ gs) :
      StepS s (onGroupChangeS v s)
  | family (s : FormDataS) (v : String) (fs : List String)
      (hd : s.group ≠ "") (hm : familiesOf s.division s.subDivision s.group = some fs)
      (hv : v = "" ∨ v ∈ fs) :
      StepS s (onFamilyChangeS v s)

/-- Reachable quiescent states of the single-page form. -/
def ReachS (s : FormDataS) : Prop :=
  Relation.ReflTransGen StepS initS s

/-- One user interaction on the wizard, composed with the cascade resets and
remount effects it triggers.  Taxonomy and code edits are available on the
Details step, description and confidence edits on the Review step;
`next` is gated by the Details validator exactly as `handleSubmit` of
`NcoFormDetails` gates `onNext`, and `submit` by the Review validator. -/
inductive StepW : WizardState → WizardState → Prop where
  | ncoCode (w : WizardState) (v : String) (hs : w.step = .details) :
      StepW w { w with record := { w.record with ncoCode := v } }
  | division (w : WizardState) (v : String) (hs : w.step = .details)
      (hv : v = "" ∨ v ∈ divisions) :
      StepW w { w with record := onDivisionChangeW v w.record }
  | subDivision (w : WizardState) (v : String) (hs : w.step = .details)
      (hd : w.record.division ≠ "")
      (hv : v = "" ∨ v ∈ subDivisionsOf w.record.division) :
      StepW w { w with record := onSubDivisionChangeW v w.record }
  | group (w : WizardState) (v : String) (gs : List String) (hs : w.step = .details)
      (hd : w.record.subDivision ≠ "")
      (hm : groupsOf w.record.division w.record.subDivision = some gs)
      (hv : v = "" ∨ v ∈ gs) :
      StepW w { w with record := onGroupChangeW v w.record }
  | family (w : WizardState) (v : String) (fs : List String) (hs : w.step = .details)
      (hd : w.record.group ≠ "")
      (hm : familiesOf w.record.division w.record.subDivision w.record.group = some fs)
      (hv : v = "" ∨ v ∈ fs) :
      StepW w { w with record := onFamilyChangeW v w.record }
  | next (w : WizardState) (hs : w.step = .details)
      (hv : (validateNcoDetails w.record).isValid = true) :
      StepW w { w with step := .review }
  | back (w : WizardState) (hs : w.step = .review) :
      StepW w (handleBackW w)
  | description (w : WizardState) (v : String) (hs : w.step = .review) :
      StepW w { w with record := { w.record with description := v } }
  | confidence (w : WizardState) (v : List Nat) (hs : w.step = .review) :
      StepW w { w with record := { w.record with confidence := v } }
  | submit (w : WizardState) (hs : w.step = .review)
      (hv : (validateNcoReview w.record).isValid = true) :
      StepW w { step := .details, record := mountDetailsCascade defaultW }

/-- Reachable quiescent states of the wizard. -/
def ReachW (w : WizardState) : Prop :=
  Relation.ReflTransGen StepW initW w

/-- A successful association-list lookup returns one of the stored values. -/
theorem lookup_mem_values {α β : Type} [BEq α] (a : α) (l : List (α × β)) (b : β)
    (h : l.lookup a = some b) : b ∈ l.map Prod.snd := by
  induction l with
  | nil => simp [List.lookup] at h
  | cons p t ih =>
      obtain ⟨k, v⟩ := p
      rw [List.lookup] at h
      rcases hb : (a == k) with _ | _
      · rw [hb] at h
        exact List.mem_cons_of_mem _ (ih h)
      · rw [hb] at h
        cases h
        exact List.mem_cons_self _ _

/-- No sub-division table of `ncoData` has an empty key. -/
theorem subtable_lookup_empty (d : String) :
    (((ncoData.lookup d).getD []).lookup "") = none := by
  rcases h : ncoData.lookup d with _ | st
  · simp
  · have hmem := lookup_mem_values d ncoData st h
    have : ∀ st ∈ ncoData.map Prod.snd, st.lookup "" = (none : Option GroupTable) := by
      decide
    simpa using this st hmem

/-- No group table of `ncoData` has an empty key. -/
theorem grouptable_lookup_empty (d sd : String) :
    ((((ncoData.lookup d).getD []).lookup sd).getD []).lookup "" = none := by
  rcases h : ncoData.lookup d with _ | st
  · simp
  · have hmem := lookup_mem_values d ncoData st h
    rcases h2 : st.lookup sd with _ | gt
    · simp [h2]
    · have hmem2 := lookup_mem_values sd st gt h2
      have : ∀ st ∈ ncoData.map Prod.snd, ∀ gt ∈ st.map Prod.snd,
          gt.lookup "" = (none : Option (List String)) := by
        decide
      simpa [h2] using this st hmem gt hmem2

/-- With an empty sub-division there are no groups in the table. -/
theorem tableGroups_subDivision_empty (d : String) : tableGroups d "" = [] := by
  unfold tableGroups
  rw [subtable_lookup_empty]
  rfl

/-- With an empty sub-division there are no families in the table. -/
theorem tableFamilies_subDivision_empty (d g : String) : tableFamilies d "" g = [] := by
  unfold tableFamilies
  rw [subtable_lookup_empty]
  rfl

/-- With an empty group there are no families in the table. -/
theorem tableFamilies_group_empty (d sd : String) : tableFamilies d sd "" = [] := by
  unfold tableFamilies
  rw [grouptable_lookup_empty]
  rfl

/-- Options offered by the sub-division select really are table keys. -/
theorem mem_tableSubs_of_subDivisionsOf {d v : String}
    (h : v ∈ subDivisionsOf d) : v ∈ tableSubs d := by
  unfold subDivisionsOf at h
  unfold tableSubs
  by_cases hd : d = ""
  · simp [hd] at h
  · simpa [hd] using h

/-- Options offered by a non-faulting group select really are table keys. -/
theorem mem_tableGroups_of_groupsOf {d sd v : String} {gs : List String}
    (hm : groupsOf d sd = some gs) (h : v ∈ gs) : v ∈ tableGroups d sd := by
  unfold groupsOf at hm
  unfold tableGroups
  by_cases he : d = "" ∨ sd = ""
  · simp [he] at hm
    subst hm
    simp at h
  · rw [if_neg he] at hm
    rcases hl : ncoData.lookup d with _ | dd
    · rw [hl] at hm
      cases hm
    · rw [hl] at hm
      cases hm
      simpa using h

/-- Options offered by a non-faulting family select really are table members. -/
theorem mem_tableFamilies_of_familiesOf {d sd g v : String} {fs : List String}
    (hm : familiesOf d sd g = some fs) (h : v ∈ fs) : v ∈ tableFamilies d sd g := by
  unfold familiesOf at hm
  unfold tableFamilies
  by_cases he : d = "" ∨ sd = "" ∨ g = ""
  · simp [he] at hm
    subst hm
    simp at h
  · rw [if_neg he] at hm
    rcases hl : ncoData.lookup d with _ | dd
    · simp [hl] at hm
    · simp only [hl] at hm
      rcases hl2 : dd.lookup sd with _ | sdd
      · simp [hl2] at hm
      · simp only [hl2, Option.some.injEq] at hm
        simp only [hl2, Option.getD_some]
        rw [hm]
        exact h


/-- Every single-page interaction, with its cascade, preserves referential
integrity. -/
theorem stepS_preserves {s t : FormDataS} (hInv : InvS s) (h : StepS s t) : InvS t := by
  cases h with
  | ncoCode v => exact hInv
  | title v => exact hInv
  | description v => exact hInv
  | confidence v => exact hInv
  | division v hv =>
      by_cases hveq : v = s.division
      · simpa [onDivisionChangeS, hveq] using hInv
      · unfold InvS IntactTaxo onDivisionChangeS
        rw [if_neg hveq]
        exact ⟨Or.inl rfl, Or.inl rfl, Or.inl rfl⟩
  | subDivision v hd hv =>
      by_cases hveq : v = s.subDivision
      · simpa [onSubDivisionChangeS, hveq] using hInv
      · unfold InvS IntactTaxo onSubDivisionChangeS
        rw [if_neg hveq]
        refine ⟨?_, Or.inl rfl, Or.inl rfl⟩
        rcases hv with rfl | hv
        · exact Or.inl rfl
        · exact Or.inr (mem_tableSubs_of_subDivisionsOf hv)
  | group v gs hd hm hv =>
      by_cases hveq : v = s.group
      · simpa [onGroupChangeS, hveq] using hInv
      · unfold InvS IntactTaxo onGroupChangeS
        rw [if_neg hveq]
        refine ⟨hInv.1, ?_, Or.inl rfl⟩
        rcases hv with rfl | hv
        · exact Or.inl rfl
        · exact Or.inr (mem_tableGroups_of_groupsOf hm hv)
  | family v fs hd hm hv =>
      unfold InvS IntactTaxo onFamilyChangeS
      refine ⟨hInv.1, hInv.2.1, ?_⟩
      rcases hv with rfl | hv
      · exact Or.inl rfl
      · exact Or.inr (mem_tableFamilies_of_familiesOf hm hv)

/-- Every wizard interaction, with its cascade and remount effects,
preserves referential integrity of the record. -/
theorem stepW_preserves {w x : WizardState} (hInv : InvW w.record) (h : StepW w x) :
    InvW x.record := by
  cases h with
  | ncoCode v hs => exact hInv
  | next hs hv => exact hInv
  | description v hs => exact hInv
  | confidence v hs => exact hInv
  | back hs =>
      exact ⟨Or.inl rfl, Or.inl rfl, Or.inl rfl⟩
  | submit hs hv =>
      exact ⟨Or.inl rfl, Or.inl rfl, Or.inl rfl⟩
  | division v hs hv =>
      by_cases hveq : v = w.record.division
      · simpa [onDivisionChangeW, hveq] using hInv
      · have hgrp : w.record.subDivision = "" → w.record.group = "" := by
          intro hsub
          rcases hInv.2.1 with hg | hg
          · exact hg
          · rw [hsub, tableGroups_subDivision_empty] at hg
            simp at hg
        have hfam : w.record.subDivision = "" → w.record.family = "" := by
          intro hsub
          rcases hInv.2.2 with hf | hf
          · exact hf
          · rw [hsub, tableFamilies_subDivision_empty] at hf
            simp at hf
        have hfam2 : w.record.group = "" → w.record.family = "" := by
          intro hg
          rcases hInv.2.2 with hf | hf
          · exact hf
          · rw [hg, tableFamilies_group_empty] at hf
            simp at hf
        unfold InvW IntactTaxo onDivisionChangeW
        rw [if_neg hveq]
        by_cases hsub : w.record.subDivision = ""
        · rw [if_pos hsub]
          exact ⟨Or.inl rfl, Or.inl (hgrp hsub), Or.inl (hfam hsub)⟩
        · rw [if_neg hsub]
          by_cases hg : w.record.group = ""
          · rw [if_pos hg]
            exact ⟨Or.inl rfl, Or.inl rfl, Or.inl (hfam2 hg)⟩
          · rw [if_neg hg]
            exact ⟨Or.inl rfl, Or.inl rfl, Or.inl rfl⟩
  | subDivision v hs hd hv =>
      by_cases hveq : v = w.record.subDivision
      · simpa [onSubDivisionChangeW, hveq] using hInv
      · have hfam2 : w.record.group = "" → w.record.family = "" := by
          intro hg
          rcases hInv.2.2 with hf | hf
          · exact hf
          · rw [hg, tableFamilies_group_empty] at hf
            simp at hf
        have hsubs : v = "" ∨ v ∈ tableSubs w.record.division := by
          rcases hv with rfl | hv
          · exact Or.inl rfl
          · exact Or.inr (mem_tableSubs_of_subDivisionsOf hv)
        unfold InvW IntactTaxo onSubDivisionChangeW
        rw [if_neg hveq]
        by_cases hg : w.record.group = ""
        · rw [if_pos hg]
          exact ⟨hsubs, Or.inl rfl, Or.inl (hfam2 hg)⟩
        · rw [if_neg hg]
          exact ⟨hsubs, Or.inl rfl, Or.inl rfl⟩
  | group v gs hs hd hm hv =>
      by_cases hveq : v = w.record.group
      · simpa [onGroupChangeW, hveq] using hInv
      · unfold InvW IntactTaxo onGroupChangeW
        rw [if_neg hveq]
        refine ⟨hInv.1, ?_, Or.inl rfl⟩
        rcases hv with rfl | hv
        · exact Or.inl rfl
        · exact Or.inr (mem_tableGroups_of_groupsOf hm hv)
  | family v fs hs hd hm hv =>
      unfold InvW IntactTaxo onFamilyChangeW
      refine ⟨hInv.1, hInv.2.1, ?_⟩
      rcases hv with rfl | hv
      · exact Or.inl rfl
      · exact Or.inr (mem_tableFamilies_of_familiesOf hm hv)

/-- C1: in every reachable quiescent state of either form variant the
taxonomy fields of the record are referentially intact (`subDivision` empty or a
key under `division`, `group` empty or a key under `division.subDivision`,
`family` empty or a member of the list at `division.subDivision.group`),
and every field-update operation together with the cascade resets it
triggers preserves this predicate. -/
theorem referential_integrity_invariant :
    (∀ s : FormDataS, ReachS s → InvS s) ∧
    (∀ s t : FormDataS, InvS s → StepS s t → InvS t) ∧
    (∀ w : WizardState, ReachW w → InvW w.record) ∧
    (∀ w x : WizardState, InvW w.record → StepW w x → InvW x.record) := by
  refine ⟨?_, fun s t h hst => stepS_preserves h hst, ?_,
    fun w x h hwx => stepW_preserves h hwx⟩
  · intro s h
    induction h with
    | refl => exact ⟨Or.inl rfl, Or.inl rfl, Or.inl rfl⟩
    | tail hab hbc ih => exact stepS_preserves ih hbc
  · intro w h
    induction h with
    | refl => exact ⟨Or.inl rfl, Or.inl rfl, Or.inl rfl⟩
    | tail hab hbc ih => exact stepW_preserves ih hbc

/-- Witness for C1: the integrity theorem applied at the initial states,
which are reachable by the empty interaction sequence. -/
theorem referential_integrity_invariant_witness :
    InvS initS ∧ InvW initW.record :=
  ⟨referential_integrity_invariant.1 initS Relation.ReflTransGen.refl,
    referential_integrity_invariant.2.2.1 initW Relation.ReflTransGen.refl⟩

instance (s : FormDataS) : Decidable (InvS s) := by
  unfold InvS
  infer_instance

instance (r : FormDataW) : Decidable (InvW r) := by
  unfold InvW
  infer_instance

/-- Under referential integrity, an empty sub-division forces an empty
group. -/
theorem invW_group_empty (r : FormDataW) (hInv : InvW r) (hsub : r.subDivision = "") :
    r.group = "" := by
  rcases hInv.2.1 with hg | hg
  · exact hg
  · rw [hsub, tableGroups_subDivision_empty] at hg
    simp at hg

/-- Under referential integrity, an empty sub-division forces an empty
family. -/
theorem invW_family_empty_of_sub (r : FormDataW) (hInv : InvW r) (hsub : r.subDivision = "") :
    r.family = "" := by
  rcases hInv.2.2 with hf | hf
  · exact hf
  · rw [hsub, tableFamilies_subDivision_empty] at hf
    simp at hf

/-- Under referential integrity, an empty group forces an empty family. -/
theorem invW_family_empty_of_group (r : FormDataW) (hInv : InvW r) (hg : r.group = "") :
    r.family = "" := by
  rcases hInv.2.2 with hf | hf
  · exact hf
  · rw [hg, tableFamilies_group_empty] at hf
    simp at hf

/-- Counterexample for C2: in the wizard variant the clears are not
unconditional over arbitrary prior record states.  From the raw state with
`subDivision = ""` but `group` and `family` non-empty, changing `division`
from Division A to Division B rewrites `subDivision` with the identical
empty string, so the dependency of the second useEffect never changes and
`group` (hence also `family`) survives the division change. -/
theorem divisionChange_not_unconditional_cex :
    ("Division B" ≠
      (FormDataW.mk "" "Division A" "" "Group A1-1" "Family A1-1-1" "" [75]).division) ∧
    ¬ ((onDivisionChangeW "Division B"
          (FormDataW.mk "" "Division A" "" "Group A1-1" "Family A1-1-1" "" [75])).subDivision = "" ∧
       (onDivisionChangeW "Division B"
          (FormDataW.mk "" "Division A" "" "Group A1-1" "Family A1-1-1" "" [75])).group = "" ∧
       (onDivisionChangeW "Division B"
          (FormDataW.mk "" "Division A" "" "Group A1-1" "Family A1-1-1" "" [75])).family = "") := by
  decide

/-- C2 (amended): a division change to a different value always yields
`subDivision = group = family = ""` in the single-page variant, for every
prior record state; in the wizard variant the same holds for every prior
state satisfying the referential-integrity invariant (hence for every
reachable state), even when the new division contains a sub-division of the
same name as the old one — but not for raw states that violate the
invariant. -/
theorem divisionChange_clears_descendants :
    (∀ (s : FormDataS) (v : String), v ≠ s.division →
      (onDivisionChangeS v s).subDivision = "" ∧
      (onDivisionChangeS v s).group = "" ∧
      (onDivisionChangeS v s).family = "") ∧
    (∀ (r : FormDataW) (v : String), InvW r → v ≠ r.division →
      (onDivisionChangeW v r).subDivision = "" ∧
      (onDivisionChangeW v r).group = "" ∧
      (onDivisionChangeW v r).family = "") := by
  constructor
  · intro s v hv
    unfold onDivisionChangeS
    rw [if_neg hv]
    exact ⟨rfl, rfl, rfl⟩
  · intro r v hInv hv
    unfold onDivisionChangeW
    rw [if_neg hv]
    by_cases hsub : r.subDivision = ""
    · rw [if_pos hsub]
      exact ⟨rfl, invW_group_empty r hInv hsub, invW_family_empty_of_sub r hInv hsub⟩
    · rw [if_neg hsub]
      by_cases hg : r.group = ""
      · rw [if_pos hg]
        exact ⟨rfl, rfl, invW_family_empty_of_group r hInv hg⟩
      · rw [if_neg hg]
        exact ⟨rfl, rfl, rfl⟩

/-- Witness for C2 (amended): a concrete full Division A selection switched
to Division B, in both variants. -/
theorem divisionChange_clears_descendants_witness :
    ((onDivisionChangeS "Division B"
        (FormDataS.mk "1111" "Clerk" "Keeps records" "Division A" "Sub-Division A1"
          "Group A1-1" "Family A1-1-1" [50])).subDivision = "" ∧
     (onDivisionChangeS "Division B"
        (FormDataS.mk "1111" "Clerk" "Keeps records" "Division A" "Sub-Division A1"
          "Group A1-1" "Family A1-1-1" [50])).group = "" ∧
     (onDivisionChangeS "Division B"
        (FormDataS.mk "1111" "Clerk" "Keeps records" "Division A" "Sub-Division A1"
          "Group A1-1" "Family A1-1-1" [50])).family = "") ∧
    ((onDivisionChangeW "Division B"
        (FormDataW.mk "1111" "Division A" "Sub-Division A1" "Group A1-1"
          "Family A1-1-1" "" [75])).subDivision = "" ∧
     (onDivisionChangeW "Division B"
        (FormDataW.mk "1111" "Division A" "Sub-Division A1" "Group A1-1"
          "Family A1-1-1" "" [75])).group = "" ∧
     (onDivisionChangeW "Division B"
        (FormDataW.mk "1111" "Division A" "Sub-Division A1" "Group A1-1"
          "Family A1-1-1" "" [75])).family = "") :=
  ⟨divisionChange_clears_descendants.1
      (FormDataS.mk "1111" "Clerk" "Keeps records" "Division A" "Sub-Division A1"
        "Group A1-1" "Family A1-1-1" [50]) "Division B" (by decide),
   divisionChange_clears_descendants.2
      (FormDataW.mk "1111" "Division A" "Sub-Division A1" "Group A1-1"
        "Family A1-1-1" "" [75]) "Division B" (by decide) (by decide)⟩

/-- The Details profile is valid exactly when the five required fields are
non-empty. -/
theorem validateNcoDetails_isValid (r : FormDataW) :
    (validateNcoDetails r).isValid = true ↔
      (r.ncoCode ≠ "" ∧ r.division ≠ "" ∧ r.subDivision ≠ "" ∧ r.group ≠ "" ∧
        r.family ≠ "") := by
  unfold validateNcoDetails
  by_cases h1 : r.ncoCode = "" <;> by_cases h2 : r.division = "" <;>
    by_cases h3 : r.subDivision = "" <;> by_cases h4 : r.group = "" <;>
    by_cases h5 : r.family = "" <;> simp [h1, h2, h3, h4, h5]

/-- The Review profile is valid exactly when the description is non-empty
and at least 10 characters long. -/
theorem validateNcoReview_isValid (r : FormDataW) :
    (validateNcoReview r).isValid = true ↔
      (r.description ≠ "" ∧ 10 ≤ r.description.length) := by
  unfold validateNcoReview
  by_cases hd : r.description = ""
  · simp [hd]
  · by_cases hl : r.description.length < 10
    · simp [hd, hl]
    · simp [hd, hl]
      omega

/-- C4: the advance action moves from Details to Review exactly when the
Details profile (code, division, subDivision, group, family non-empty) is
valid; on failure the step and record are unchanged and the field-keyed
error map of the validator is surfaced. -/
theorem details_advance_spec (r : FormDataW) :
    ((validateNcoDetails r).isValid = true ↔
      (r.ncoCode ≠ "" ∧ r.division ≠ "" ∧ r.subDivision ≠ "" ∧ r.group ≠ "" ∧
        r.family ≠ "")) ∧
    ((validateNcoDetails r).isValid = true →
      handleDetailsAdvance { step := .details, record := r } =
        ({ step := .review, record := r }, [])) ∧
    ((validateNcoDetails r).isValid = false →
      handleDetailsAdvance { step := .details, record := r } =
        ({ step := .details, record := r }, (validateNcoDetails r).errors)) := by
  refine ⟨validateNcoDetails_isValid r, ?_, ?_⟩
  · intro h
    simp [handleDetailsAdvance, h]
  · intro h
    simp [handleDetailsAdvance, h]

/-- Witness for C4: advancing succeeds on a fully selected record and is
refused, with the record kept, on the initial record. -/
theorem details_advance_spec_witness :
    (handleDetailsAdvance
        (WizardState.mk WStep.details
          (FormDataW.mk "1111" "Division A" "Sub-Division A1" "Group A1-1"
            "Family A1-1-1" "" [75])) =
      (WizardState.mk WStep.review
          (FormDataW.mk "1111" "Division A" "Sub-Division A1" "Group A1-1"
            "Family A1-1-1" "" [75]), [])) ∧
    (handleDetailsAdvance (WizardState.mk WStep.details defaultW) =
      (WizardState.mk WStep.details defaultW, (validateNcoDetails defaultW).errors)) :=
  ⟨(details_advance_spec (FormDataW.mk "1111" "Division A" "Sub-Division A1" "Group A1-1"
      "Family A1-1-1" "" [75])).2.1 (by decide),
   (details_advance_spec defaultW).2.2 (by decide)⟩

/-- C3: the Review submit fires exactly when the Review profile is valid
(description non-empty with at least 10 characters); on success the record
is reset to the defaults (all strings empty, confidence back to 75) and the
step returns to Details; on failure the step stays at Review with the
record kept and the description error surfaced. -/
theorem review_submit_spec (r : FormDataW) :
    ((validateNcoReview r).isValid = true ↔
      (r.description ≠ "" ∧ 10 ≤ r.description.length)) ∧
    ((validateNcoReview r).isValid = true →
      handleSubmitReview { step := .review, record := r } =
        ({ step := .details, record := defaultW }, [])) ∧
    ((validateNcoReview r).isValid = false →
      handleSubmitReview { step := .review, record := r } =
        ({ step := .review, record := r },
          [("description", "Description must be at least 10 characters")])) := by
  refine ⟨validateNcoReview_isValid r, ?_, ?_⟩
  · intro h
    simp [handleSubmitReview, h]
    decide
  · intro h
    by_cases hc : r.description = "" ∨ r.description.length < 10
    · simp [handleSubmitReview, validateNcoReview, hc, h]
    · simp [validateNcoReview, hc] at h
  
/-- Witness for C3: submitting succeeds on a record with a 19-character
description and is refused on a record with an empty description. -/
theorem review_submit_spec_witness :
    (handleSubmitReview
        (WizardState.mk WStep.review
          (FormDataW.mk "1111" "Division A" "Sub-Division A1" "Group A1-1"
            "Family A1-1-1" "A detailed write-up" [80])) =
      (WizardState.mk WStep.details defaultW, [])) ∧
    (handleSubmitReview
        (WizardState.mk WStep.review
          (FormDataW.mk "1111" "Division A" "Sub-Division A1" "Group A1-1"
            "Family A1-1-1" "" [80])) =
      (WizardState.mk WStep.review
          (FormDataW.mk "1111" "Division A" "Sub-Division A1" "Group A1-1"
            "Family A1-1-1" "" [80]),
        [("description", "Description must be at least 10 characters")])) :=
  ⟨(review_submit_spec (FormDataW.mk "1111" "Division A" "Sub-Division A1" "Group A1-1"
      "Family A1-1-1" "A detailed write-up" [80])).2.1 (by decide),
   (review_submit_spec (FormDataW.mk "1111" "Division A" "Sub-Division A1" "Group A1-1"
      "Family A1-1-1" "" [80])).2.2 (by decide)⟩

/-- C6: Review validation flags `description` with the fixed message
exactly when the description is empty or shorter than 10 characters; any
10-character description is unflagged and valid; the 5-character
description "short" is flagged. -/
theorem review_description_rule (r : FormDataW) :
    ((validateNcoReview r).errors.lookup "description" =
        some "Description must be at least 10 characters" ↔
      (r.description = "" ∨ r.description.length < 10)) ∧
    (r.description.length = 10 →
      ((validateNcoReview r).errors.lookup "description" = none ∧
        (validateNcoReview r).isValid = true)) ∧
    ((validateNcoReview (FormDataW.mk "" "" "" "" "" "short" [75])).errors.lookup
        "description" = some "Description must be at least 10 characters") := by
  refine ⟨?_, ?_, by decide⟩
  · by_cases hc : r.description = "" ∨ r.description.length < 10
    · simp [validateNcoReview, hc, List.lookup]
    · simp [validateNcoReview, hc]
  · intro hlen
    have hc : ¬(r.description = "" ∨ r.description.length < 10) := by
      rintro (h | h)
      · rw [h] at hlen
        simp at hlen
      · omega
    simp [validateNcoReview, hc]

/-- Witness for C6: the rule applied at a record whose description has
exactly 10 characters. -/
theorem review_description_rule_witness :
    (validateNcoReview (FormDataW.mk "" "" "" "" "" "0123456789" [75])).errors.lookup
        "description" = none ∧
      (validateNcoReview (FormDataW.mk "" "" "" "" "" "0123456789" [75])).isValid = true :=
  (review_description_rule (FormDataW.mk "" "" "" "" "" "0123456789" [75])).2.1 (by decide)

/-- The suggestion template is never the empty string. -/
theorem suggestionText_ne_empty (a b c d : String) : suggestionText a b c d ≠ "" := by
  intro h
  have hlen := congrArg String.length h
  simp [suggestionText, String.length_append] at hlen
  have hP : ("Professional role in ").length = 21 := rfl
  omega

/-- C8: a completed suggestion call with the success result of the service
overwrites exactly the description (all other fields of the record are
kept) and raises the success toast; a failure result or a thrown error
leaves the whole record unchanged and raises only the error toast. -/
theorem suggestion_overwrites_description_only :
    (∀ (division subDivision grp fam : String) (r : FormDataW),
      applySuggestionOutcome (getNcoDescriptionSuggestion division subDivision grp fam) r =
        (FormDataW.mk r.ncoCode r.division r.subDivision r.group r.family
          (suggestionText division subDivision grp fam) r.confidence,
          ToastKind.success)) ∧
    (∀ (o : SuggestionOutcome) (r : FormDataW),
      (o = SuggestionOutcome.thrown ∨ ∃ d, o = SuggestionOutcome.ok false d) →
      applySuggestionOutcome o r = (r, ToastKind.error)) := by
  constructor
  · intro division subDivision grp fam r
    simp [applySuggestionOutcome, getNcoDescriptionSuggestion,
      suggestionText_ne_empty division subDivision grp fam]
  · rintro o r (rfl | ⟨d, rfl⟩)
    · rfl
    · simp [applySuggestionOutcome]

/-- Witness for C8: a concrete successful call over the Division A path and
a concrete failure result. -/
theorem suggestion_overwrites_description_only_witness :
    (applySuggestionOutcome
        (getNcoDescriptionSuggestion "Division A" "Sub-Division A1" "Group A1-1"
          "Family A1-1-1")
        (FormDataW.mk "1111" "Division A" "Sub-Division A1" "Group A1-1"
          "Family A1-1-1" "old text" [75]) =
      (FormDataW.mk "1111" "Division A" "Sub-Division A1" "Group A1-1" "Family A1-1-1"
        (suggestionText "Division A" "Sub-Division A1" "Group A1-1" "Family A1-1-1")
        [75], ToastKind.success)) ∧
    (applySuggestionOutcome SuggestionOutcome.thrown
        (FormDataW.mk "1111" "Division A" "Sub-Division A1" "Group A1-1"
          "Family A1-1-1" "old text" [75]) =
      (FormDataW.mk "1111" "Division A" "Sub-Division A1" "Group A1-1"
        "Family A1-1-1" "old text" [75], ToastKind.error)) :=
  ⟨suggestion_overwrites_description_only.1 "Division A" "Sub-Division A1" "Group A1-1"
      "Family A1-1-1"
      (FormDataW.mk "1111" "Division A" "Sub-Division A1" "Group A1-1" "Family A1-1-1"
        "old text" [75]),
   suggestion_overwrites_description_only.2 SuggestionOutcome.thrown
      (FormDataW.mk "1111" "Division A" "Sub-Division A1" "Group A1-1" "Family A1-1-1"
        "old text" [75]) (Or.inl rfl)⟩

/-- C9: a successful single-page submit keeps every field of the record,
clears the error map and shows the acknowledgement. -/
theorem single_submit_no_reset (r : FormDataS)
    (h : (validateForm r).isValid = true) :
    handleSubmitSingle r = (r, [], true) := by
  simp [handleSubmitSingle, h]

/-- Witness for C9: a concrete record passing the combined profile. -/
theorem single_submit_no_reset_witness :
    handleSubmitSingle
        (FormDataS.mk "1111" "Clerk" "Keeps the records" "Division A" "Sub-Division A1"
          "Group A1-1" "Family A1-1-1" [50]) =
      (FormDataS.mk "1111" "Clerk" "Keeps the records" "Division A" "Sub-Division A1"
        "Group A1-1" "Family A1-1-1" [50], [], true) :=
  single_submit_no_reset
    (FormDataS.mk "1111" "Clerk" "Keeps the records" "Division A" "Sub-Division A1"
      "Group A1-1" "Family A1-1-1" [50]) (by decide)

/-- C10: going Back from Review remounts the Details form, whose mount-time
cascade clears `subDivision`, `group` and `family` while `ncoCode`,
`division`, `description` and `confidence` keep their values, so the
resulting record no longer validates under the Details profile. -/
theorem wizard_back_resets_taxonomy (r : FormDataW) :
    handleBackW (WizardState.mk WStep.review r) =
      WizardState.mk WStep.details
        (FormDataW.mk r.ncoCode r.division "" "" "" r.description r.confidence) ∧
    (validateNcoDetails (handleBackW (WizardState.mk WStep.review r)).record).isValid
      = false := by
  constructor
  · rfl
  · simp [handleBackW, mountDetailsCascade, detailsEffectGroup, detailsEffectSubDivision,
      detailsEffectDivision, validateNcoDetails]

/-- First-defined entry wins: the union of two field-keyed error maps with
disjoint keys, read at one field. -/
def firstSome (a b : Option String) : Option String :=
  match a with
  | some m => some m
  | none => b

theorem firstSome_none_left (b : Option String) : firstSome none b = b := rfl

theorem firstSome_none_right (a : Option String) : firstSome a none = a := by
  cases a <;> rfl

/-- Key access distributes over concatenation of error records. -/
theorem lookup_append (a : String) (l1 l2 : List (String × String)) :
    (l1 ++ l2).lookup a = firstSome (l1.lookup a) (l2.lookup a) := by
  induction l1 with
  | nil => simp [List.lookup, firstSome]
  | cons p t ih =>
      obtain ⟨k, v⟩ := p
      rcases hk : (a == k) with _ | _
      · simp [List.lookup, hk, ih]
      · simp [List.lookup, hk, firstSome]

/-- Key access on a conditional singleton error record. -/
theorem lookup_condSingleton (a k m : String) (c : Prop) [Decidable c] :
    ((if c then [(k, m)] else [] : List (String × String)).lookup a) =
      if c ∧ a = k then some m else none := by
  by_cases hc : c
  · by_cases hk : a = k
    · simp [hc, hk, List.lookup]
    · have hb : (a == k) = false := beq_eq_false_iff_ne.mpr hk
      simp [hc, hb, hk, List.lookup]
  · simp [hc, List.lookup]

/-- Renaming projection from the single-page record to the wizard record
shape, so the wizard validators can be read on the same data. -/
def toWizardRecord (s : FormDataS) : FormDataW :=
  FormDataW.mk s.ncoCode s.division s.subDivision s.group s.family s.description
    s.confidenceScore

/-- The singleton error map holding the title requirement exactly when the
title is empty, read at one field. -/
def titleError (s : FormDataS) (field : String) : Option String :=
  if s.title = "" ∧ field = "title" then some "Title is required" else none

/-- C5: the error map of the single-page validator is, pointwise at every field,
the union of the Details-profile map, the Review-profile map and the
title-requirement singleton, with identical per-field messages; its
`isValid` is true exactly when that union is empty. -/
theorem single_profile_is_union (s : FormDataS) :
    (∀ field : String,
      (validateForm s).errors.lookup field =
        firstSome ((validateNcoDetails (toWizardRecord s)).errors.lookup field)
          (firstSome ((validateNcoReview (toWizardRecord s)).errors.lookup field)
            (titleError s field))) ∧
    ((validateForm s).isValid = true ↔
      ((validateNcoDetails (toWizardRecord s)).errors = [] ∧
        (validateNcoReview (toWizardRecord s)).errors = [] ∧ s.title ≠ "")) := by
  constructor
  · intro field
    by_cases hf1 : field = "ncoCode"
    · subst hf1
      simp [validateForm, validateNcoDetails, validateNcoReview, toWizardRecord,
        titleError, lookup_append, lookup_condSingleton, firstSome_none_left, firstSome_none_right]
    · by_cases hf2 : field = "title"
      · subst hf2
        simp [validateForm, validateNcoDetails, validateNcoReview, toWizardRecord,
          titleError, lookup_append, lookup_condSingleton, firstSome_none_left, firstSome_none_right]
      · by_cases hf3 : field = "description"
        · subst hf3
          simp [validateForm, validateNcoDetails, validateNcoReview, toWizardRecord,
            titleError, lookup_append, lookup_condSingleton, firstSome_none_left, firstSome_none_right]
        · by_cases hf4 : field = "division"
          · subst hf4
            simp [validateForm, validateNcoDetails, validateNcoReview, toWizardRecord,
              titleError, lookup_append, lookup_condSingleton, firstSome_none_left, firstSome_none_right]
          · by_cases hf5 : field = "subDivision"
            · subst hf5
              simp [validateForm, validateNcoDetails, validateNcoReview, toWizardRecord,
                titleError, lookup_append, lookup_condSingleton, firstSome_none_left, firstSome_none_right]
            · by_cases hf6 : field = "group"
              · subst hf6
                simp [validateForm, validateNcoDetails, validateNcoReview, toWizardRecord,
                  titleError, lookup_append, lookup_condSingleton, firstSome_none_left, firstSome_none_right]
              · by_cases hf7 : field = "family"
                · subst hf7
                  simp [validateForm, validateNcoDetails, validateNcoReview, toWizardRecord,
                    titleError, lookup_append, lookup_condSingleton, firstSome_none_left, firstSome_none_right]
                · simp [validateForm, validateNcoDetails, validateNcoReview, toWizardRecord,
                    titleError, lookup_append, lookup_condSingleton, firstSome_none_left, firstSome_none_right,
                    hf1, hf2, hf3, hf4, hf5, hf6, hf7]
  · by_cases h1 : s.ncoCode = "" <;> by_cases h2 : s.title = "" <;>
      by_cases h3 : s.description = "" ∨ s.description.length < 10 <;>
      by_cases h4 : s.division = "" <;> by_cases h5 : s.subDivision = "" <;>
      by_cases h6 : s.group = "" <;> by_cases h7 : s.family = "" <;>
      simp [validateForm, validateNcoDetails, validateNcoReview, toWizardRecord,
        h1, h2, h3, h4, h5, h6, h7]

/-- A key listed by `Object.keys` has a successful lookup. -/
theorem lookup_some_of_mem_keys {α β : Type} [BEq α] [LawfulBEq α]
    (l : List (α × β)) (a : α) (h : a ∈ l.map Prod.fst) :
    ∃ b, l.lookup a = some b := by
  induction l with
  | nil => simp at h
  | cons p t ih =>
      obtain ⟨k, v⟩ := p
      by_cases hk : a = k
      · exact ⟨v, by simp [List.lookup, hk]⟩
      · simp at h
        rcases h with h | ⟨x, hx⟩
        · exact absurd h hk
        · obtain ⟨b, hb⟩ := ih (List.mem_map_of_mem Prod.fst hx)
          refine ⟨b, ?_⟩
          have hbeq : (a == k) = false := beq_eq_false_iff_ne.mpr hk
          simp [List.lookup, hbeq, hb]

/-- Counterexample for C7: at a path whose middle ancestor is non-empty but
absent from the table, the `families` computation faults (a JavaScript
TypeError on reading a property of `undefined`, modelled `none`) instead of
yielding the empty sequence the claim requires. -/
theorem childrenOf_absent_ancestor_cex :
    familiesOf "Division A" "Bogus" "Group A1-1" = none ∧
    familiesOf "Division A" "Bogus" "Group A1-1" ≠ some [] ∧
    groupsOf "Bogus" "Sub-Division A1" = none := by
  decide

/-- C7 (amended): the option-list computation is a pure function of the
table and the selection path.  Depth 0 yields all top-level keys and depth
1 agrees with the specified `childrenOf` on every input; depths 2 and 3 agree
with `childrenOf` whenever each proper ancestor is empty or an actual table
key (in particular they yield the empty sequence when any path component is
empty and the children recorded in the table, in table order, on valid paths), but they
fault (`none`) instead of yielding the empty sequence when a non-empty
proper ancestor is absent from the table. -/
theorem childrenOf_characterization :
    (divisions = childrenOfSpec []) ∧
    (∀ d : String, subDivisionsOf d = childrenOfSpec [d]) ∧
    (∀ d sd : String, (d = "" ∨ d ∈ divisions) →
      groupsOf d sd = some (childrenOfSpec [d, sd])) ∧
    (∀ d sd g : String,
      (d = "" ∨ sd = "" ∨ g = "" ∨ (d ∈ divisions ∧ sd ∈ subDivisionsOf d)) →
      familiesOf d sd g = some (childrenOfSpec [d, sd, g])) ∧
    (∀ d sd : String, d ≠ "" → sd ≠ "" → ncoData.lookup d = none →
      groupsOf d sd = none) := by
  refine ⟨rfl, ?_, ?_, ?_, ?_⟩
  · intro d
    by_cases hd : d = ""
    · simp [subDivisionsOf, childrenOfSpec, hd]
    · rcases hl : ncoData.lookup d with _ | dd
      · simp [subDivisionsOf, childrenOfSpec, tableSubs, hd, hl]
      · simp [subDivisionsOf, childrenOfSpec, tableSubs, hd, hl]
  · intro d sd h
    rcases h with rfl | hd
    · simp [groupsOf, childrenOfSpec]
    · have hdne : d ≠ "" := by
        intro he
        rw [he] at hd
        exact absurd hd (by decide)
      obtain ⟨dd, hl⟩ := lookup_some_of_mem_keys ncoData d (by simpa [divisions] using hd)
      by_cases hsd : sd = ""
      · simp [groupsOf, childrenOfSpec, hsd]
      · rcases h2 : dd.lookup sd with _ | gt
        · simp [groupsOf, childrenOfSpec, tableGroups, hdne, hsd, hl, h2]
        · simp [groupsOf, childrenOfSpec, tableGroups, hdne, hsd, hl, h2]
  · intro d sd g h
    by_cases hd : d = ""
    · simp [familiesOf, childrenOfSpec, hd]
    · by_cases hsd : sd = ""
      · simp [familiesOf, childrenOfSpec, hd, hsd]
      · by_cases hg : g = ""
        · simp [familiesOf, childrenOfSpec, hd, hsd, hg]
        · rcases h with rfl | rfl | rfl | ⟨hdm, hsdm⟩
          · exact absurd rfl hd
          · exact absurd rfl hsd
          · exact absurd rfl hg
          · obtain ⟨dd, hl⟩ :=
              lookup_some_of_mem_keys ncoData d (by simpa [divisions] using hdm)
            have hsdm2 : sd ∈ dd.map Prod.fst := by
              simpa [subDivisionsOf, hd, hl] using hsdm
            obtain ⟨sdd, h2⟩ := lookup_some_of_mem_keys dd sd hsdm2
            rcases h3 : sdd.lookup g with _ | fl
            · simp [familiesOf, childrenOfSpec, tableFamilies, hd, hsd, hg, hl, h2, h3]
            · simp [familiesOf, childrenOfSpec, tableFamilies, hd, hsd, hg, hl, h2, h3]
  · intro d sd h1 h2 hl
    simp [groupsOf, h1, h2, hl]

/-- Witness for C7 (amended): the characterization applied on a valid path
and on a faulting path. -/
theorem childrenOf_characterization_witness :
    (groupsOf "Division A" "Sub-Division A1" =
      some (childrenOfSpec ["Division A", "Sub-Division A1"])) ∧
    (familiesOf "Division A" "Sub-Division A1" "Group A1-1" =
      some (childrenOfSpec ["Division A", "Sub-Division A1", "Group A1-1"])) ∧
    (groupsOf "Bogus" "Sub-Division A1" = none) :=
  ⟨childrenOf_characterization.2.2.1 "Division A" "Sub-Division A1" (by decide),
   childrenOf_characterization.2.2.2.1 "Division A" "Sub-Division A1" "Group A1-1"
     (by decide),
   childrenOf_characterization.2.2.2.2 "Bogus" "Sub-Division A1" (by decide) (by decide)
     (by decide)⟩
